import Mathlib

/-!
Shallow embedding of the Tron game server (`server/server.go`).

The server is a single "Broker" event loop owning all session state.  We embed
its state (`ServerState`), its event handlers (`subscribe`, `unsubscribe`,
`handleMessage`, `handleDisconnect`, `handleConnect`), and a step function over
broker events.  Socket writes and channel signals are modelled as a list of
`Effect`s produced by each handler; a Go nil-pointer dereference (an unrecovered
panic) is modelled by the handler returning `none`.

JSON encoding/decoding (`encoding/json` together with the `jsontypes` record
shapes) is an external collaborator: `json.Unmarshal` of an inbound line only
ever feeds the `Type` tag of the decoded record into the handler's switch, and a
failed unmarshal leaves the tag at its zero value `""`.  We therefore pass the
decoded tag (`tag`) alongside the raw line (`raw`) into `handleMessage`; a
malformed payload is the case `tag = ""`.  Outbound JSON marshalling is kept
structural (`OutMsg`), since `json.Marshal` of the fixed `StartGame` record
cannot fail.
-/

namespace Tron

/-- The fixed color pool contents installed by `Create` (server.go lines 88-91). -/
def allColors : List String := ["#ff0000", "#00ff00", "#0000ff"]

/-- One registered player (`client` struct, server.go lines 67-72).  The `conn`
field is an opaque socket handle; writes to it are modelled as `Effect.send`
keyed by the player's id, so the handle itself is omitted. -/
structure Client where
  id : Int
  color : String
  ready : Bool
deriving DecidableEq

/-- The broker-owned session state (`Server` struct, server.go lines 51-65).
Channels themselves are not state; `listenerClosed` records whether
`serverListener.Close()` has been called (the listener permanently stops
accepting once closed). -/
structure ServerState where
  players : List Client
  free_colors : List String
  ids : Int
  phase : Nat
  ticking : Bool
  listenerClosed : Bool
deriving DecidableEq

/-- `Create` (server.go lines 75-93): empty player list, id counter 0, lobby
phase 0, ticker idle, the three colors pushed into the free list in order. -/
def create : ServerState :=
  { players := [], free_colors := allColors, ids := 0, phase := 0,
    ticking := false, listenerClosed := false }

/-- A message sent by the server, structurally.  `text` is a verbatim line
rebroadcast (chat / player_event); the others are the fixed JSON shapes the
server itself produces. -/
inductive OutMsg where
  | text (payload : String)
  | startGame (colors : List String)
  | connectNotice (color : String)
  | joinAnnouncement (color : String)
deriving DecidableEq

/-- An observable action of a handler: a socket write to the player with the
given id, or a channel signal / goroutine launch. -/
inductive Effect where
  | send (recipient : Int) (m : OutMsg)
  | launchTicker
  | stopTickSignal
  | stopListenSignal
  | closeListener
  | stopServerSignal
deriving DecidableEq

/-- `subscribe` (server.go lines 95-103): append the new player, assign the next
id, pop the FRONT color of the free list.  With an empty free list
`s.free_colors.Front()` is nil and `e.Value` panics: modelled as `none`. -/
def subscribe (s : ServerState) : Option (ServerState × Client) :=
  match s.free_colors with
  | [] => none
  | c :: rest =>
    let p : Client := { id := s.ids, color := c, ready := false }
    let s' :=
      { s with players := s.players ++ [p], ids := s.ids + 1, free_colors := rest }
    some (s', p)

/-- `unsubscribe` (server.go lines 105-115): find the player by pointer
identity, push its color to the BACK of the free list, remove it from the
slice.  Each `subscribe` allocates a fresh object with a fresh id, so pointer
identity coincides with id equality; at most one element matches, hence the
single removal is `eraseP`. -/
def unsubscribe (s : ServerState) (p : Client) : ServerState :=
  if s.players.any (fun q => q.id == p.id) then
    { s with free_colors := s.free_colors ++ [p.color],
             players := s.players.eraseP (fun q => q.id == p.id) }
  else s

/-- `findById` (server.go lines 141-148): first player whose id matches. -/
def findById (s : ServerState) (i : Int) : Option Client :=
  s.players.find? (fun p => p.id == i)

/-- `isAllReady` (server.go lines 269-279): false with fewer than 2 players,
else true iff every player's ready flag is set. -/
def isAllReady (s : ServerState) : Bool :=
  if s.players.length < 2 then false
  else s.players.all (fun p => p.ready)

/-- `sendAllClients` (server.go lines 254-262): write the message to every
player whose id differs from `except_id`, in registration order. -/
def sendAllClients (s : ServerState) (m : OutMsg) (except_id : Int) :
    List Effect :=
  s.players.filterMap
    (fun p => if p.id == except_id then none else some (Effect.send p.id m))

/-- Go's `unicode.IsSpace` on the Latin-1 range (the full cutset also holds
higher Unicode space runes, irrelevant to the line-delimited protocol). -/
def isGoSpace (c : Char) : Bool :=
  c = ' ' || c = '\t' || c = '\n' || c = '\x0b' || c = '\x0c' || c = '\r' ||
    c = '\u0085' || c = '\u00A0'

/-- `strings.TrimSpace`: drop leading and trailing whitespace. -/
def trimSpace (s : String) : String :=
  ⟨((s.data.dropWhile isGoSpace).reverse.dropWhile isGoSpace).reverse⟩

/-- In the ready branch `p.ready = true` mutates the found player in place;
since ids are unique among registered players, this is the by-id update. -/
def markReady (players : List Client) (sid : Int) : List Client :=
  players.map (fun q => if q.id == sid then { q with ready := true } else q)

/-- The lobby-phase case of `handleMessage` (server.go lines 176-203).
`tag` is the `Type` field that `json.Unmarshal` decodes from the line (`""`
when unmarshalling fails), `raw` the raw line; the handler has already trimmed
whitespace into `trimSpace raw` (`strings.TrimSpace`, server.go line 169).
`none` models the nil-pointer dereference that occurs when `findById` failed
and the branch dereferences `p` (`p.id` in the chat branch, the store
`p.ready = true` in the ready branch). -/
def lobbyHandle (s : ServerState) (senderId : Int) (tag : String)
    (raw : String) : Option (ServerState × List Effect) :=
    if tag = "chat" then
      match findById s senderId with
      | none => none
      | some p => some (s, sendAllClients s (OutMsg.text (trimSpace raw)) p.id)
    else if tag = "ready" then
      match findById s senderId with
      | none => none
      | some p =>
        if isAllReady { s with players := markReady s.players p.id } then
          some ({ s with players := markReady s.players p.id, phase := 1 },
                sendAllClients { s with players := markReady s.players p.id }
                  (OutMsg.startGame
                    ((markReady s.players p.id).map (fun q => q.color))) (-1))
        else
          some ({ s with players := markReady s.players p.id }, [])
    else
      some (s, [])

/-- The game-phase case of `handleMessage` (server.go lines 204-225): every
message first signals `stopListen` and closes the listener (lines 205-207)
before the payload is even examined; `none` again models the nil dereference
of a sender `findById` could not resolve. -/
def gameHandle (s : ServerState) (senderId : Int) (tag : String)
    (raw : String) : Option (ServerState × List Effect) :=
    if tag = "start" then
      if s.ticking then
        some ({ s with listenerClosed := true },
              [Effect.stopListenSignal, Effect.closeListener])
      else
        some ({ s with ticking := true, listenerClosed := true },
              [Effect.stopListenSignal, Effect.closeListener,
               Effect.launchTicker])
    else if tag = "player_event" then
      match findById s senderId with
      | none => none
      | some p =>
        some ({ s with listenerClosed := true },
              [Effect.stopListenSignal, Effect.closeListener] ++
                sendAllClients { s with listenerClosed := true }
                  (OutMsg.text (trimSpace raw)) p.id)
    else
      some ({ s with listenerClosed := true },
            [Effect.stopListenSignal, Effect.closeListener])

/-- The dispatch of `handleMessage` on the phase switch (server.go line 175);
a phase value other than 0/1 matches no switch case and falls through. -/
def handleMessage (s : ServerState) (senderId : Int) (tag : String)
    (raw : String) : Option (ServerState × List Effect) :=
  match s.phase with
  | 0 => lobbyHandle s senderId tag raw
  | 1 => gameHandle s senderId tag raw
  | _ => some (s, [])

/-- `shutdown` (server.go lines 247-252): stop the listener, close it, signal
the broker loop to stop. -/
def shutdown (s : ServerState) : ServerState × List Effect :=
  ({ s with listenerClosed := true },
   [Effect.stopListenSignal, Effect.closeListener, Effect.stopServerSignal])

/-- The tail of `handleDisconnect` (server.go lines 238-244): if no player
remains, send the ticker stop signal when the ticking flag is set, then shut
down. -/
def teardownCheck (s1 : ServerState) : ServerState × List Effect :=
  if s1.players.length < 1 then
    ((shutdown s1).1,
     (if s1.ticking then [Effect.stopTickSignal] else []) ++ (shutdown s1).2)
  else
    (s1, [])

/-- `handleDisconnect` (server.go lines 230-245): unsubscribe the player found
by id (with `nil` the unsubscribe loop matches nothing), then tear the session
down if it was the last one. -/
def handleDisconnect (s : ServerState) (i : Int) : ServerState × List Effect :=
  match findById s i with
  | none => teardownCheck s
  | some p => teardownCheck (unsubscribe s p)

/-- `handleConnect` (server.go lines 281-307), up to spawning the reader loop:
subscribe the connection, send it its Connect notice, broadcast a chat-shaped
join announcement to everyone else. -/
def handleConnect (s : ServerState) : Option (ServerState × List Effect) :=
  match subscribe s with
  | none => none
  | some (s1, p) =>
    some (s1, Effect.send p.id (OutMsg.connectNotice p.color)
              :: sendAllClients s1 (OutMsg.joinAnnouncement p.color) p.id)

/-- One event drawn from the broker's merged channel select
(server.go lines 126-137). -/
inductive Event where
  | connect
  | message (senderId : Int) (tag : String) (raw : String)
  | disconnect (id : Int)
  | stop
deriving DecidableEq

/-- One iteration of the broker loop: dispatch the event to its handler.
`Event.stop` terminates the loop without touching state. -/
def step (s : ServerState) (e : Event) : Option (ServerState × List Effect) :=
  match e with
  | Event.connect => handleConnect s
  | Event.message sid tag raw => handleMessage s sid tag raw
  | Event.disconnect i => some (handleDisconnect s i)
  | Event.stop => some (s, [])

/-- Run the broker over a list of events, returning the final state
(`none` as soon as some handler panics). -/
def run (s : ServerState) : List Event → Option ServerState
  | [] => some s
  | e :: es =>
    match step s e with
    | none => none
    | some (s', _) => run s' es

/-- Run the broker over a list of events, also collecting all effects. -/
def runEff (s : ServerState) : List Event → Option (ServerState × List Effect)
  | [] => some (s, [])
  | e :: es =>
    match step s e with
    | none => none
    | some (s', effs) =>
      match runEff s' es with
      | none => none
      | some (s'', effs') => some (s'', effs ++ effs')

/-- Color-accounting invariant: the free list together with the held colors is
a permutation of the fixed pool contents. -/
def colorInv (s : ServerState) : Prop :=
  (s.free_colors ++ s.players.map (fun p => p.color)).Perm allColors

/-- Id discipline: the counter is nonnegative, every registered id is a
past counter value, and registered ids are distinct. -/
def idInv (s : ServerState) : Prop :=
  0 ≤ s.ids ∧ (∀ p ∈ s.players, 0 ≤ p.id ∧ p.id < s.ids) ∧
    (s.players.map (fun p => p.id)).Nodup

/-- Ticker/listener coupling: the ticking flag is only ever set by an in-game
message, which closes the listener first. -/
def tickInv (s : ServerState) : Prop :=
  s.ticking = true → s.listenerClosed = true

/-- The state invariant maintained by every broker step. -/
def Inv (s : ServerState) : Prop :=
  colorInv s ∧ idInv s ∧ tickInv s

/-- A lobby state with two registered players, the first already ready. -/
def lobbyTwo : ServerState :=
  { players := [{ id := 0, color := "#ff0000", ready := true },
                { id := 1, color := "#00ff00", ready := false }],
    free_colors := ["#0000ff"], ids := 2, phase := 0,
    ticking := false, listenerClosed := false }

/-- An in-game state with two registered players, ticker not yet started,
listener already closed by a processed in-game message. -/
def gameTwo : ServerState :=
  { players := [{ id := 0, color := "#ff0000", ready := true },
                { id := 1, color := "#00ff00", ready := true }],
    free_colors := ["#0000ff"], ids := 2, phase := 1,
    ticking := false, listenerClosed := true }

/-- A lobby state holding a single registered player. -/
def oneLobby : ServerState :=
  { players := [{ id := 0, color := "#ff0000", ready := false }],
    free_colors := ["#00ff00", "#0000ff"], ids := 1, phase := 0,
    ticking := false, listenerClosed := false }

instance (s : ServerState) : Decidable (colorInv s) := by
  unfold colorInv
  exact inferInstance

instance (s : ServerState) : Decidable (idInv s) := by
  unfold idInv
  exact inferInstance

instance (s : ServerState) : Decidable (tickInv s) := by
  unfold tickInv
  exact inferInstance

instance (s : ServerState) : Decidable (Inv s) := by
  unfold Inv
  exact inferInstance

end Tron
namespace Tron

/-- Marking a player ready changes no color. -/
theorem markReady_map_color (ps : List Client) (sid : Int) :
    (markReady ps sid).map (fun p => p.color) = ps.map (fun p => p.color) := by
  unfold markReady
  rw [List.map_map]
  apply List.map_congr_left
  intro a _
  by_cases h : a.id = sid <;> simp [h]

/-- Marking a player ready changes no id. -/
theorem markReady_map_id (ps : List Client) (sid : Int) :
    (markReady ps sid).map (fun p => p.id) = ps.map (fun p => p.id) := by
  unfold markReady
  rw [List.map_map]
  apply List.map_congr_left
  intro a _
  by_cases h : a.id = sid <;> simp [h]

/-- Marking a player ready changes no length. -/
theorem markReady_length (ps : List Client) (sid : Int) :
    (markReady ps sid).length = ps.length := by
  simp [markReady]

/-- Every member of the ready-marked list shares id and color with a member of
the original list. -/
theorem mem_markReady (ps : List Client) (sid : Int) (p' : Client)
    (h : p' ∈ markReady ps sid) :
    ∃ q ∈ ps, p'.id = q.id ∧ p'.color = q.color := by
  unfold markReady at h
  obtain ⟨q, hq, rfl⟩ := List.mem_map.mp h
  refine ⟨q, hq, ?_⟩
  by_cases h : q.id = sid <;> simp [h]

/-- The freshly created server satisfies the invariant. -/
theorem inv_create : Inv create := by decide

/-- Computation rule for `subscribe` on a nonempty free list. -/
theorem subscribe_cons (s : ServerState) (c : String) (rest : List String)
    (h : s.free_colors = c :: rest) :
    subscribe s = some
      ({ s with players := s.players ++ [{ id := s.ids, color := c, ready := false }],
                ids := s.ids + 1, free_colors := rest },
       { id := s.ids, color := c, ready := false }) := by
  unfold subscribe
  rw [h]

/-- Color accounting after an allocation. -/
theorem colorInv_subscribe (s : ServerState) (c : String) (rest : List String)
    (hfc : s.free_colors = c :: rest) (hc : colorInv s) :
    (rest ++ ((s.players.map (fun p => p.color)) ++ [c])).Perm allColors := by
  unfold colorInv at hc
  rw [hfc] at hc
  have h1 : (rest ++ (s.players.map (fun p => p.color) ++ [c])).Perm
      (rest ++ ([c] ++ s.players.map (fun p => p.color))) :=
    List.Perm.append_left _ List.perm_append_comm
  have h2 : rest ++ ([c] ++ s.players.map (fun p => p.color)) =
      rest ++ c :: s.players.map (fun p => p.color) := by simp
  have h3 : (rest ++ c :: s.players.map (fun p => p.color)).Perm
      (c :: (rest ++ s.players.map (fun p => p.color))) := List.perm_middle
  rw [h2] at h1
  exact h1.trans (h3.trans hc)

/-- `subscribe` preserves the invariant. -/
theorem inv_subscribe (s s' : ServerState) (p : Client) (h : Inv s)
    (hs : subscribe s = some (s', p)) : Inv s' := by
  obtain ⟨hc, ⟨hids, hbnd, hnd⟩, ht⟩ := h
  cases hfc : s.free_colors with
  | nil => unfold subscribe at hs; rw [hfc] at hs; exact absurd hs (by simp)
  | cons c rest =>
    rw [subscribe_cons s c rest hfc] at hs
    simp only [Option.some.injEq, Prod.mk.injEq] at hs
    obtain ⟨rfl, rfl⟩ := hs
    refine ⟨?_, ⟨?_, ?_, ?_⟩, ?_⟩
    · unfold colorInv
      dsimp only
      simp only [List.map_append, List.map_cons, List.map_nil]
      exact colorInv_subscribe s c rest hfc hc
    · dsimp only
      omega
    · dsimp only
      intro q hq
      rcases List.mem_append.mp hq with hq | hq
      · have := hbnd q hq
        omega
      · rcases List.mem_singleton.mp hq with rfl
        dsimp only
        omega
    · dsimp only
      simp only [List.map_append, List.map_cons, List.map_nil]
      rw [List.nodup_append]
      refine ⟨hnd, List.nodup_singleton _, ?_⟩
      intro x hx hx'
      rcases List.mem_singleton.mp hx' with rfl
      obtain ⟨q, hq, hqid⟩ := List.mem_map.mp hx
      have := hbnd q hq
      omega
    · unfold tickInv at *
      dsimp only
      exact ht

/-- `unsubscribe` of a registered player: explicit final state (the by-id
removal hits exactly that player since registered ids are distinct). -/
theorem unsubscribe_of_mem (s : ServerState) (p : Client) (hp : p ∈ s.players)
    (hnd : (s.players.map (fun q => q.id)).Nodup) :
    ∃ l₁ l₂, s.players = l₁ ++ p :: l₂ ∧
      unsubscribe s p =
        { s with players := l₁ ++ l₂,
                 free_colors := s.free_colors ++ [p.color] } := by
  have hany : s.players.any (fun q => q.id == p.id) = true :=
    List.any_eq_true.mpr ⟨p, hp, by simp⟩
  obtain ⟨a, l₁, l₂, _, ha, hsplit, herase⟩ :=
    List.exists_of_eraseP (p := fun q => q.id == p.id) hp (by simp)
  have haid : a.id = p.id := beq_iff_eq.mp ha
  have hamem : a ∈ s.players := by rw [hsplit]; simp
  have hap : a = p := List.inj_on_of_nodup_map hnd hamem hp haid
  subst hap
  refine ⟨l₁, l₂, hsplit, ?_⟩
  unfold unsubscribe
  rw [if_pos hany, herase]

/-- `unsubscribe` of a registered player preserves the invariant. -/
theorem inv_unsubscribe (s : ServerState) (p : Client) (h : Inv s)
    (hp : p ∈ s.players) : Inv (unsubscribe s p) := by
  obtain ⟨hc, ⟨hids, hbnd, hnd⟩, ht⟩ := h
  obtain ⟨l₁, l₂, hsplit, hu⟩ := unsubscribe_of_mem s p hp hnd
  rw [hu]
  refine ⟨?_, ⟨hids, ?_, ?_⟩, ht⟩
  · unfold colorInv at hc ⊢
    dsimp only
    rw [hsplit] at hc
    simp only [List.map_append, List.map_cons] at hc
    have h2 : (l₁.map (fun q => q.color) ++ p.color :: l₂.map (fun q => q.color)).Perm
        (p.color :: (l₁.map (fun q => q.color) ++ l₂.map (fun q => q.color))) :=
      List.perm_middle
    have h3 := ((List.Perm.append_left s.free_colors h2).symm).trans hc
    simp only [List.map_append]
    have h4 : ((s.free_colors ++ [p.color]) ++
        (l₁.map (fun q => q.color) ++ l₂.map (fun q => q.color))).Perm
        (s.free_colors ++ p.color ::
          (l₁.map (fun q => q.color) ++ l₂.map (fun q => q.color))) := by
      simp only [List.append_assoc, List.singleton_append]
      exact List.Perm.refl _
    exact h4.trans h3
  · dsimp only
    intro q hq
    apply hbnd
    rw [hsplit]
    rcases List.mem_append.mp hq with hq | hq <;> simp [hq]
  · dsimp only
    have hsub : (l₁ ++ l₂).Sublist (l₁ ++ p :: l₂) :=
      List.Sublist.append_left (List.sublist_cons_self _ _) l₁
    rw [hsplit] at hnd
    exact List.Sublist.nodup (List.Sublist.map _ hsub) hnd

/-- Marking ready (and possibly advancing the phase) preserves the invariant. -/
theorem inv_markReady (s : ServerState) (sid : Int) (ph : Nat) (h : Inv s) :
    Inv { s with players := markReady s.players sid, phase := ph } := by
  obtain ⟨hc, ⟨hids, hbnd, hnd⟩, ht⟩ := h
  refine ⟨?_, ⟨hids, ?_, ?_⟩, ht⟩
  · unfold colorInv at hc ⊢
    dsimp only
    rw [markReady_map_color]
    exact hc
  · dsimp only
    intro q hq
    obtain ⟨q', hq', hid, _⟩ := mem_markReady _ _ _ hq
    rw [hid]
    exact hbnd q' hq'
  · dsimp only
    rw [markReady_map_id]
    exact hnd

/-- `handleMessage` preserves the invariant. -/
theorem inv_handleMessage {s s' : ServerState} {sid : Int} {tag raw : String}
    {effs : List Effect} (h : Inv s)
    (hm : handleMessage s sid tag raw = some (s', effs)) : Inv s' := by
  unfold handleMessage lobbyHandle gameHandle at hm
  split at hm
  · -- phase 0
    split at hm
    · -- chat
      split at hm
      · exact absurd hm (by simp)
      · simp only [Option.some.injEq, Prod.mk.injEq] at hm
        obtain ⟨hs', _⟩ := hm
        rw [← hs']
        exact h
    · split at hm
      · -- ready
        split at hm
        · exact absurd hm (by simp)
        · rename_i p _
          split at hm
          · simp only [Option.some.injEq, Prod.mk.injEq] at hm
            obtain ⟨hs', _⟩ := hm
            rw [← hs']
            exact inv_markReady s p.id 1 h
          · simp only [Option.some.injEq, Prod.mk.injEq] at hm
            obtain ⟨hs', _⟩ := hm
            rw [← hs']
            have := inv_markReady s p.id s.phase h
            simpa using this
      · -- unknown tag in lobby
        simp only [Option.some.injEq, Prod.mk.injEq] at hm
        obtain ⟨hs', _⟩ := hm
        rw [← hs']
        exact h
  · -- phase 1
    obtain ⟨hc, hi, _⟩ := h
    split at hm
    · split at hm
      · simp only [Option.some.injEq, Prod.mk.injEq] at hm
        obtain ⟨hs', _⟩ := hm
        rw [← hs']
        exact ⟨hc, hi, fun _ => rfl⟩
      · simp only [Option.some.injEq, Prod.mk.injEq] at hm
        obtain ⟨hs', _⟩ := hm
        rw [← hs']
        exact ⟨hc, hi, fun _ => rfl⟩
    · split at hm
      · split at hm
        · exact absurd hm (by simp)
        · simp only [Option.some.injEq, Prod.mk.injEq] at hm
          obtain ⟨hs', _⟩ := hm
          rw [← hs']
          exact ⟨hc, hi, fun _ => rfl⟩
      · simp only [Option.some.injEq, Prod.mk.injEq] at hm
        obtain ⟨hs', _⟩ := hm
        rw [← hs']
        exact ⟨hc, hi, fun _ => rfl⟩
  · -- other phase values
    simp only [Option.some.injEq, Prod.mk.injEq] at hm
    obtain ⟨hs', _⟩ := hm
    rw [← hs']
    exact h

/-- `teardownCheck` preserves the invariant. -/
theorem inv_teardownCheck (s : ServerState) (h : Inv s) :
    Inv (teardownCheck s).1 := by
  unfold teardownCheck shutdown
  split
  · exact ⟨h.1, h.2.1, fun _ => rfl⟩
  · exact h

/-- `handleDisconnect` preserves the invariant. -/
theorem inv_handleDisconnect (s : ServerState) (i : Int) (h : Inv s) :
    Inv (handleDisconnect s i).1 := by
  unfold handleDisconnect
  cases hf : findById s i with
  | none => exact inv_teardownCheck s h
  | some p =>
    exact inv_teardownCheck _
      (inv_unsubscribe s p h (List.mem_of_find?_eq_some hf))

/-- `handleConnect` preserves the invariant. -/
theorem inv_handleConnect {s s' : ServerState} {effs : List Effect}
    (h : Inv s) (hm : handleConnect s = some (s', effs)) : Inv s' := by
  unfold handleConnect at hm
  cases hsub : subscribe s with
  | none => rw [hsub] at hm; exact absurd hm (by simp)
  | some v =>
    rw [hsub] at hm
    simp only [Option.some.injEq, Prod.mk.injEq] at hm
    obtain ⟨hs', _⟩ := hm
    rw [← hs']
    exact inv_subscribe s v.1 v.2 h (by rw [hsub])

/-- Every broker step preserves the invariant. -/
theorem inv_step {s s' : ServerState} {e : Event} {effs : List Effect}
    (h : Inv s) (hm : step s e = some (s', effs)) : Inv s' := by
  cases e with
  | connect => exact inv_handleConnect h hm
  | message sid tag raw => exact inv_handleMessage h hm
  | disconnect i =>
    unfold step at hm
    simp only [Option.some.injEq] at hm
    have h1 := inv_handleDisconnect s i h
    rw [hm] at h1
    exact h1
  | stop =>
    unfold step at hm
    simp only [Option.some.injEq, Prod.mk.injEq] at hm
    obtain ⟨hs', _⟩ := hm
    rw [← hs']
    exact h

/-- Running any event trace preserves the invariant. -/
theorem inv_run {s s' : ServerState} (τ : List Event)
    (h : Inv s) (hm : run s τ = some s') : Inv s' := by
  induction τ generalizing s with
  | nil => unfold run at hm; simp only [Option.some.injEq] at hm; rw [← hm]; exact h
  | cons e es ih =>
    unfold run at hm
    cases hst : step s e with
    | none => rw [hst] at hm; exact absurd hm (by simp)
    | some v =>
      rw [hst] at hm
      exact ih (inv_step h hst) hm

end Tron
namespace Tron

/-- Broadcasting with an excluded id that belongs to no player reaches every
player in registration order. -/
theorem sendAll_of_not_mem (ps : List Client) (m : OutMsg) (e : Int)
    (h : ∀ p ∈ ps, p.id ≠ e) :
    ps.filterMap
      (fun p => if p.id == e then none else some (Effect.send p.id m)) =
      ps.map (fun p => Effect.send p.id m) := by
  induction ps with
  | nil => rfl
  | cons a l ih =>
    have ha : (a.id == e) = false := by
      simp only [beq_eq_false_iff_ne, ne_eq]
      exact h a (by simp)
    rw [List.filterMap_cons, List.map_cons, ha]
    simp only [Bool.false_eq_true, if_false]
    rw [ih (fun p hp => h p (List.mem_cons_of_mem a hp))]

/-- `isAllReady` unfolded into the quorum condition. -/
theorem isAllReady_iff (s : ServerState) :
    isAllReady s = true ↔
      2 ≤ s.players.length ∧ ∀ q ∈ s.players, q.ready = true := by
  unfold isAllReady
  by_cases h : s.players.length < 2
  · rw [if_pos h]
    simp only [Bool.false_eq_true, false_iff, not_and]
    intro h2
    omega
  · rw [if_neg h]
    rw [List.all_eq_true]
    constructor
    · intro hall
      exact ⟨by omega, hall⟩
    · intro hall
      exact hall.2

/-- The invariant gives distinct held colors. -/
theorem nodup_held_colors (s : ServerState) (h : colorInv s) :
    (s.players.map (fun p => p.color)).Nodup := by
  unfold colorInv at h
  have hall : allColors.Nodup := by decide
  have hnd : (s.free_colors ++ s.players.map (fun p => p.color)).Nodup :=
    (List.Perm.nodup_iff h).mpr hall
  exact (List.nodup_append.mp hnd).2.1

/-- C2: on every reachable state (reachability forces the pool to be non-empty
at each admission, else the run panics), the free colors together with the
held colors form the fixed three-color multiset, hence every color is held by
at most one registered player; and the color accounting is preserved by each
`subscribe` and each `unsubscribe` of a registered player. -/
theorem C2_color_exclusivity (s : ServerState) (τ : List Event)
    (h : run create τ = some s) :
    ((s.free_colors ++ s.players.map (fun p => p.color)).Perm allColors ∧
      (s.players.map (fun p => p.color)).Nodup) ∧
    (∀ t t' : ServerState, ∀ p : Client, Inv t → subscribe t = some (t', p) →
      (t'.free_colors ++ t'.players.map (fun q => q.color)).Perm allColors ∧
        (t'.players.map (fun q => q.color)).Nodup) ∧
    (∀ t : ServerState, ∀ p : Client, Inv t → p ∈ t.players →
      ((unsubscribe t p).free_colors ++
          (unsubscribe t p).players.map (fun q => q.color)).Perm allColors ∧
        ((unsubscribe t p).players.map (fun q => q.color)).Nodup) := by
  have hs : Inv s := inv_run τ inv_create h
  refine ⟨⟨hs.1, nodup_held_colors s hs.1⟩, ?_, ?_⟩
  · intro t t' p hi hsub
    have h' := inv_subscribe t t' p hi hsub
    exact ⟨h'.1, nodup_held_colors t' h'.1⟩
  · intro t p hi hp
    have h' := inv_unsubscribe t p hi hp
    exact ⟨h'.1, nodup_held_colors _ h'.1⟩

/-- C2 witness: the invariant evaluated on the state reached by two admissions
followed by the first player's disconnect. -/
theorem C2_color_exclusivity_witness :
    (run create [Event.connect, Event.connect, Event.disconnect 0] =
      some { players := [{ id := 1, color := "#00ff00", ready := false }],
             free_colors := ["#0000ff", "#ff0000"], ids := 2, phase := 0,
             ticking := false, listenerClosed := false }) ∧
    (({ players := [{ id := 1, color := "#00ff00", ready := false }],
        free_colors := ["#0000ff", "#ff0000"], ids := 2, phase := 0,
        ticking := false,
        listenerClosed := false } : ServerState).free_colors ++
      (({ players := [{ id := 1, color := "#00ff00", ready := false }],
          free_colors := ["#0000ff", "#ff0000"], ids := 2, phase := 0,
          ticking := false,
          listenerClosed := false } : ServerState).players.map
        (fun p => p.color))).Perm allColors :=
  ⟨by decide,
   (C2_color_exclusivity _ [Event.connect, Event.connect, Event.disconnect 0]
      (by decide)).1.1⟩

/-- C3: the color pool is a FIFO reuse queue: `subscribe` hands out the color
at the FRONT of the queue (the least recently freed, or least recently
never-allocated, color) and removes it, and `unsubscribe` of a registered
player appends that player's color to the BACK. -/
theorem C3_fifo_pool (s : ServerState) (c : String) (rest : List String)
    (p : Client) (hfc : s.free_colors = c :: rest) (hp : p ∈ s.players)
    (hnd : (s.players.map (fun q => q.id)).Nodup) :
    (∃ s' q, subscribe s = some (s', q) ∧ q.color = c ∧
      s'.free_colors = rest ∧ s'.players = s.players ++ [q]) ∧
    ((unsubscribe s p).free_colors = s.free_colors ++ [p.color]) := by
  constructor
  · refine ⟨_, _, subscribe_cons s c rest hfc, rfl, rfl, rfl⟩
  · obtain ⟨l₁, l₂, _, hu⟩ := unsubscribe_of_mem s p hp hnd
    rw [hu]

/-- C3 witness: with pool `[g, b]` and red held, allocation pops `g` and the
disconnect of the red player appends `#ff0000` at the back. -/
theorem C3_fifo_pool_witness :
    (({ players := [{ id := 0, color := "#ff0000", ready := false }],
        free_colors := ["#00ff00", "#0000ff"], ids := 1, phase := 0,
        ticking := false, listenerClosed := false } : ServerState).free_colors =
      "#00ff00" :: ["#0000ff"]) ∧
    (unsubscribe
        { players := [{ id := 0, color := "#ff0000", ready := false }],
          free_colors := ["#00ff00", "#0000ff"], ids := 1, phase := 0,
          ticking := false, listenerClosed := false }
        { id := 0, color := "#ff0000", ready := false }).free_colors =
      ["#00ff00", "#0000ff"] ++ ["#ff0000"] :=
  ⟨by decide,
   (C3_fifo_pool
      { players := [{ id := 0, color := "#ff0000", ready := false }],
        free_colors := ["#00ff00", "#0000ff"], ids := 1, phase := 0,
        ticking := false, listenerClosed := false }
      "#00ff00" ["#0000ff"] { id := 0, color := "#ff0000", ready := false }
      (by decide) (by decide) (by decide)).2⟩

end Tron
namespace Tron

/-- C1: in the lobby phase, a Ready message from a registered sender marks that
sender ready; then a StartGame broadcast fires and the phase flips to InGame
exactly when at least 2 players are registered and all of them are ready, the
broadcast going once to every registered player and listing every registered
player's color exactly once in registration order; with fewer than 2 players
nothing is broadcast and the phase stays Lobby, whatever the ready flags. -/
theorem C1_ready_quorum (s : ServerState) (sid : Int) (raw : String)
    (p : Client) (hinv : Inv s) (hphase : s.phase = 0)
    (hfind : findById s sid = some p) :
    ∃ s' effs, handleMessage s sid "ready" raw = some (s', effs) ∧
      s'.players = markReady s.players sid ∧
      ((2 ≤ s.players.length ∧
          ∀ q ∈ markReady s.players sid, q.ready = true) ↔ s'.phase = 1) ∧
      (s'.phase = 1 →
        effs = (markReady s.players sid).map
          (fun q => Effect.send q.id
            (OutMsg.startGame (s.players.map (fun r => r.color)))) ∧
        ∀ q ∈ s.players,
          (s.players.map (fun r => r.color)).count q.color = 1) ∧
      (s'.phase ≠ 1 → s'.phase = 0 ∧ effs = []) ∧
      (s.players.length < 2 → s'.phase = 0 ∧ effs = []) := by
  have hfind' : s.players.find? (fun q => q.id == sid) = some p := hfind
  have hpred := List.find?_some (p := fun q : Client => q.id == sid) hfind'
  have hpid : p.id = sid := by simpa using hpred
  have hbnd := hinv.2.1.2.1
  unfold handleMessage lobbyHandle gameHandle
  rw [hphase]
  rw [if_neg (by decide), if_pos rfl]
  rw [hfind]
  dsimp only
  rw [hpid]
  by_cases hq : isAllReady { players := markReady s.players sid, free_colors := s.free_colors, ids := s.ids, phase := 0, ticking := s.ticking, listenerClosed := s.listenerClosed } = true
  · rw [if_pos hq]
    have hqq := (isAllReady_iff _).mp hq
    dsimp only at hqq
    rw [markReady_length] at hqq
    refine ⟨_, _, rfl, rfl, ?_, ?_, ?_, ?_⟩
    · simp only [iff_true]
      exact hqq
    · intro _
      constructor
      · unfold sendAllClients
        dsimp only
        rw [markReady_map_color]
        apply sendAll_of_not_mem
        intro q hq'
        obtain ⟨q', hq'', hid, _⟩ := mem_markReady _ _ _ hq'
        have := hbnd q' hq''
        omega
      · intro q hqm
        have hnd := nodup_held_colors s hinv.1
        apply List.count_eq_one_of_mem hnd
        exact List.mem_map.mpr ⟨q, hqm, rfl⟩
    · intro h1
      exact absurd rfl h1
    · intro hlen
      exact absurd hqq.1 (by omega)
  · rw [if_neg hq]
    have hqq : ¬(2 ≤ s.players.length ∧
        ∀ q ∈ markReady s.players sid, q.ready = true) := by
      intro hc
      apply hq
      apply (isAllReady_iff _).mpr
      dsimp only
      rw [markReady_length]
      exact hc
    refine ⟨_, _, rfl, rfl, ?_, ?_, ?_, ?_⟩
    · dsimp only
      simp only [iff_false_intro (by omega : ¬(0 = 1))]
      simpa using hqq
    · intro h1
      dsimp only at h1
      exact absurd h1 (by decide)
    · intro _
      exact ⟨rfl, rfl⟩
    · intro _
      exact ⟨rfl, rfl⟩



/-- C1 witness: in `lobbyTwo`, player 1 sending ready completes the quorum. -/
theorem C1_ready_quorum_witness :
    (Inv lobbyTwo ∧ lobbyTwo.phase = 0 ∧
      findById lobbyTwo 1 = some { id := 1, color := "#00ff00", ready := false }) ∧
    (∃ s' effs, handleMessage lobbyTwo 1 "ready" "r" = some (s', effs) ∧
      s'.players = markReady lobbyTwo.players 1 ∧ s'.phase = 1 ∧
      effs = (markReady lobbyTwo.players 1).map
        (fun q => Effect.send q.id
          (OutMsg.startGame (lobbyTwo.players.map (fun r => r.color))))) := by
  refine ⟨⟨by decide, by decide, by decide⟩, ?_⟩
  obtain ⟨s', effs, h1, h2, h3, h4, _⟩ :=
    C1_ready_quorum lobbyTwo 1 "r" { id := 1, color := "#00ff00", ready := false }
      (by decide) (by decide) (by decide)
  have hph : s'.phase = 1 := by
    apply h3.mp
    refine ⟨by decide, ?_⟩
    decide
  exact ⟨s', effs, h1, h2, hph, (h4 hph).1⟩

end Tron

namespace Tron

/-- The fan-out written as filter-then-map: everyone whose id differs from the
excluded one, in registration order. -/
theorem filterMap_send_eq (ps : List Client) (m : OutMsg) (e : Int) :
    ps.filterMap
      (fun p => if p.id == e then none else some (Effect.send p.id m)) =
      (ps.filter (fun q => q.id != e)).map (fun q => Effect.send q.id m) := by
  induction ps with
  | nil => rfl
  | cons a l ih =>
    simp only [beq_iff_eq] at ih
    by_cases h : a.id = e
    · simp [List.filterMap_cons, List.filter_cons, h, ih]
    · simp [List.filterMap_cons, List.filter_cons, h, ih]

/-- Distinct recipients give distinct send effects. -/
theorem nodup_send_map (ps : List Client) (m : OutMsg)
    (h : (ps.map (fun q => q.id)).Nodup) :
    (ps.map (fun q => Effect.send q.id m)).Nodup := by
  have heq : ps.map (fun q => Effect.send q.id m) =
      (ps.map (fun q => q.id)).map (fun i => Effect.send i m) := by
    rw [List.map_map]
    rfl
  rw [heq]
  apply List.Nodup.map ?_ h
  intro a b hab
  injection hab

end Tron

namespace Tron

/-- C4 counterexample: a chat line carrying leading/trailing whitespace inside
the payload (still valid JSON, so `json.Unmarshal` decodes tag "chat") is
relayed trimmed: the line written to player 1 is the trimmed payload plus the
newline `sendAllClients` appends, which differs byte-for-byte from the line the
sender transmitted. -/
theorem C4_verbatim_counterexample :
    handleMessage lobbyTwo 0 "chat" " \x7b\"type\" : \"chat\"\x7d \n" =
      some (lobbyTwo,
        [Effect.send 1 (OutMsg.text "\x7b\"type\" : \"chat\"\x7d")]) ∧
    "\x7b\"type\" : \"chat\"\x7d" ++ "\n" ≠ " \x7b\"type\" : \"chat\"\x7d \n" :=
  ⟨by decide, by decide⟩

/-- C4 amended: a Chat message in the Lobby phase, and a PlayerEvent message in
the InGame phase, from a registered sender is relayed as the whitespace-trimmed
transmitted line (hence byte-for-byte identical whenever the payload carries no
whitespace beyond the line delimiter), delivered exactly once to every
registered player other than the sender, never echoed to the sender, and
delivered to nobody when the sender is the only registered player. -/
theorem C4_relay_except_sender (s : ServerState) (sid : Int) (raw : String)
    (p : Client) (hinv : Inv s) (hfind : findById s sid = some p) :
    (s.phase = 0 →
      handleMessage s sid "chat" raw =
        some (s, (s.players.filter (fun q => q.id != sid)).map
          (fun q => Effect.send q.id (OutMsg.text (trimSpace raw))))) ∧
    (s.phase = 1 →
      handleMessage s sid "player_event" raw =
        some ({ s with listenerClosed := true },
          [Effect.stopListenSignal, Effect.closeListener] ++
            (s.players.filter (fun q => q.id != sid)).map
              (fun q => Effect.send q.id (OutMsg.text (trimSpace raw))))) ∧
    (∀ m : OutMsg, Effect.send sid m ∉
      (s.players.filter (fun q => q.id != sid)).map
        (fun q => Effect.send q.id (OutMsg.text (trimSpace raw)))) ∧
    (∀ q ∈ s.players, q.id ≠ sid →
      ((s.players.filter (fun r => r.id != sid)).map
          (fun r => Effect.send r.id (OutMsg.text (trimSpace raw)))).count
        (Effect.send q.id (OutMsg.text (trimSpace raw))) = 1) ∧
    (s.players = [p] →
      (s.players.filter (fun q => q.id != sid)).map
        (fun q => Effect.send q.id (OutMsg.text (trimSpace raw))) = []) := by
  have hfind' : s.players.find? (fun q => q.id == sid) = some p := hfind
  have hpred := List.find?_some (p := fun q : Client => q.id == sid) hfind'
  have hpid : p.id = sid := by simpa using hpred
  refine ⟨?_, ?_, ?_, ?_, ?_⟩
  · intro h0
    unfold handleMessage lobbyHandle gameHandle
    rw [h0]
    dsimp only
    rw [if_pos rfl, hfind]
    dsimp only
    rw [hpid]
    unfold sendAllClients
    rw [filterMap_send_eq]
  · intro h1
    unfold handleMessage lobbyHandle gameHandle
    rw [h1]
    dsimp only
    rw [if_neg (by decide), if_pos rfl, hfind]
    dsimp only
    rw [hpid]
    unfold sendAllClients
    dsimp only
    rw [filterMap_send_eq]
  · intro m hm
    obtain ⟨q, hq, hqe⟩ := List.mem_map.mp hm
    have hne : (q.id != sid) = true := (List.mem_filter.mp hq).2
    have hq1 : q.id = sid := by
      have hqe' := hqe
      simp only [Effect.send.injEq] at hqe'
      exact hqe'.1
    simp [hq1] at hne
  · intro q hq hqid
    have hnd : ((s.players.filter (fun r => r.id != sid)).map
        (fun r => r.id)).Nodup := by
      apply List.Sublist.nodup (List.Sublist.map _ (List.filter_sublist _))
      exact hinv.2.1.2.2
    apply List.count_eq_one_of_mem (nodup_send_map _ _ hnd)
    apply List.mem_map.mpr
    refine ⟨q, List.mem_filter.mpr ⟨hq, by simp [hqid]⟩, rfl⟩
  · intro hps
    rw [hps, List.filter_cons]
    simp [hpid]

/-- C4 amended witness: in `lobbyTwo`, a chat line from player 0 reaches
exactly player 1 as the trimmed payload. -/
theorem C4_relay_except_sender_witness :
    (Inv lobbyTwo ∧
      findById lobbyTwo 0 = some { id := 0, color := "#ff0000", ready := true } ∧
      lobbyTwo.phase = 0) ∧
    handleMessage lobbyTwo 0 "chat" "hi\n" =
      some (lobbyTwo, [Effect.send 1 (OutMsg.text "hi")]) := by
  refine ⟨⟨by decide, by decide, by decide⟩, ?_⟩
  have h := (C4_relay_except_sender lobbyTwo 0 "hi\n"
    { id := 0, color := "#ff0000", ready := true }
    (by decide) (by decide)).1 (by decide)
  rw [h]
  decide

/-- C10: the message handler is nil-safe only when the sender is registered:
with an unregistered sender a Lobby chat or an InGame player_event dereferences
the nil result of `findById` (a panic, modelled as `none`); with a registered
sender the handler always returns normally. -/
theorem C10_sender_lookup_safety (s : ServerState) (sid : Int)
    (tag raw : String) :
    (findById s sid = none →
      ((s.phase = 0 ∧ tag = "chat") ∨ (s.phase = 1 ∧ tag = "player_event")) →
      handleMessage s sid tag raw = none) ∧
    (∀ p, findById s sid = some p →
      (handleMessage s sid tag raw).isSome = true) := by
  constructor
  · rintro hnone (⟨h0, rfl⟩ | ⟨h1, rfl⟩)
    · unfold handleMessage lobbyHandle gameHandle
      rw [h0]
      dsimp only
      rw [if_pos rfl, hnone]
    · unfold handleMessage lobbyHandle gameHandle
      rw [h1]
      dsimp only
      rw [if_neg (by decide), if_pos rfl, hnone]
  · intro p hfind
    rcases hph : s.phase with _ | _ | n
    · unfold handleMessage lobbyHandle gameHandle
      rw [hph]
      dsimp only
      by_cases hc : tag = "chat"
      · rw [if_pos hc, hfind]
        rfl
      · rw [if_neg hc]
        by_cases hr : tag = "ready"
        · rw [if_pos hr, hfind]
          dsimp only
          split <;> rfl
        · rw [if_neg hr]
          rfl
    · unfold handleMessage lobbyHandle gameHandle
      rw [hph, Nat.zero_add]
      dsimp only
      by_cases hst : tag = "start"
      · rw [if_pos hst]
        split <;> rfl
      · rw [if_neg hst]
        by_cases hpe : tag = "player_event"
        · rw [if_pos hpe, hfind]
          rfl
        · rw [if_neg hpe]
          rfl
    · unfold handleMessage lobbyHandle gameHandle
      rw [hph]
      rfl

/-- C10 witness: on the fresh server (no registered player) a chat message
from id 0 hits the nil dereference. -/
theorem C10_sender_lookup_safety_witness :
    (findById create 0 = none ∧ (create.phase = 0 ∧ "chat" = "chat")) ∧
    handleMessage create 0 "chat" "x\n" = none :=
  ⟨⟨by decide, by decide, rfl⟩,
   (C10_sender_lookup_safety create 0 "chat" "x\n").1 (by decide)
     (Or.inl ⟨by decide, rfl⟩)⟩

end Tron
namespace Tron


/-- C5: disconnecting a registered player removes it and returns its color to
the back of the pool; when it was the last player the handler emits the ticker
stop signal exactly when the ticking flag is set, stops and closes the
listener, and signals the broker loop to terminate; when players remain, none
of those teardown actions occur. -/
theorem C5_last_disconnect_teardown (s : ServerState) (i : Int) (p : Client)
    (hfind : findById s i = some p)
    (hnd : (s.players.map (fun q => q.id)).Nodup) :
    ∃ l₁ l₂, s.players = l₁ ++ p :: l₂ ∧
      (handleDisconnect s i).1.players = l₁ ++ l₂ ∧
      (handleDisconnect s i).1.free_colors = s.free_colors ++ [p.color] ∧
      (l₁ ++ l₂ = [] →
        (handleDisconnect s i).2 =
          (if s.ticking = true then [Effect.stopTickSignal] else []) ++
            [Effect.stopListenSignal, Effect.closeListener,
             Effect.stopServerSignal]) ∧
      (l₁ ++ l₂ ≠ [] → (handleDisconnect s i).2 = []) := by
  have hp : p ∈ s.players := List.mem_of_find?_eq_some hfind
  obtain ⟨l₁, l₂, hsplit, hu⟩ := unsubscribe_of_mem s p hp hnd
  have hdc : handleDisconnect s i =
      teardownCheck { s with players := l₁ ++ l₂,
                             free_colors := s.free_colors ++ [p.color] } := by
    unfold handleDisconnect
    rw [hfind]
    dsimp only
    rw [hu]
  refine ⟨l₁, l₂, hsplit, ?_, ?_, ?_, ?_⟩
  · rw [hdc]
    unfold teardownCheck shutdown
    split <;> rfl
  · rw [hdc]
    unfold teardownCheck shutdown
    split <;> rfl
  · intro hnil
    rw [hdc]
    unfold teardownCheck shutdown
    rw [if_pos (by simp [hnil])]
  · intro hnil
    rw [hdc]
    unfold teardownCheck shutdown
    have hlen : ¬(l₁ ++ l₂).length < 1 := by
      intro hlt
      apply hnil
      apply List.length_eq_zero.mp
      omega
    rw [if_neg hlen]

/-- C5 witness: disconnecting the only player of `oneLobby` (ticker idle)
yields exactly the listener stop, listener close and loop stop signals. -/
theorem C5_last_disconnect_teardown_witness :
    (findById oneLobby 0 = some { id := 0, color := "#ff0000", ready := false } ∧
      (oneLobby.players.map (fun q => q.id)).Nodup) ∧
    (handleDisconnect oneLobby 0).2 =
      [Effect.stopListenSignal, Effect.closeListener,
       Effect.stopServerSignal] := by
  refine ⟨⟨by decide, by decide⟩, ?_⟩
  obtain ⟨l₁, l₂, h1, h2, h3, h4, h5⟩ :=
    C5_last_disconnect_teardown oneLobby 0
      { id := 0, color := "#ff0000", ready := false } (by decide) (by decide)
  have hnil : l₁ ++ l₂ = [] := by
    have h2' := h2
    rw [show (handleDisconnect oneLobby 0).1.players = [] from by decide] at h2'
    exact h2'.symm
  rw [h4 hnil]
  decide

end Tron

namespace Tron

/-- `unsubscribe` leaves the phase alone. -/
theorem phase_unsubscribe (s : ServerState) (p : Client) :
    (unsubscribe s p).phase = s.phase := by
  unfold unsubscribe
  split <;> rfl

/-- `teardownCheck` leaves the phase alone. -/
theorem phase_teardownCheck (s : ServerState) :
    (teardownCheck s).1.phase = s.phase := by
  unfold teardownCheck shutdown
  split <;> rfl

/-- One broker step never lowers the phase, and the only step that changes it
is a ready message from a registered sender completing the quorum, moving
Lobby (0) to InGame (1). -/
theorem step_phase (s : ServerState) (e : Event) (s' : ServerState)
    (effs : List Effect) (hstep : step s e = some (s', effs)) :
    s.phase ≤ s'.phase ∧ (s.phase = 1 → s'.phase = 1) ∧
      (s'.phase ≠ s.phase → s.phase = 0 ∧ s'.phase = 1 ∧
        ∃ sid raw p, e = Event.message sid "ready" raw ∧
          findById s sid = some p ∧
          isAllReady { s with players := markReady s.players p.id } = true) := by
  cases e with
  | connect =>
    have hph : s'.phase = s.phase := by
      unfold step handleConnect at hstep
      cases hfc : s.free_colors with
      | nil =>
        unfold subscribe at hstep
        rw [hfc] at hstep
        exact absurd hstep (by simp)
      | cons c rest =>
        rw [subscribe_cons s c rest hfc] at hstep
        simp only [Option.some.injEq, Prod.mk.injEq] at hstep
        rw [← hstep.1]
    rw [hph]
    exact ⟨Nat.le_refl _, fun h => h, fun h => absurd rfl h⟩
  | disconnect i =>
    have hph : s'.phase = s.phase := by
      unfold step at hstep
      simp only [Option.some.injEq] at hstep
      have h1 : (handleDisconnect s i).1 = s' := by rw [hstep]
      rw [← h1]
      unfold handleDisconnect
      cases hf : findById s i with
      | none =>
        exact phase_teardownCheck s
      | some p =>
        dsimp only
        rw [phase_teardownCheck, phase_unsubscribe]
    rw [hph]
    exact ⟨Nat.le_refl _, fun h => h, fun h => absurd rfl h⟩
  | stop =>
    have hph : s'.phase = s.phase := by
      unfold step at hstep
      simp only [Option.some.injEq, Prod.mk.injEq] at hstep
      rw [← hstep.1]
    rw [hph]
    exact ⟨Nat.le_refl _, fun h => h, fun h => absurd rfl h⟩
  | message sid tag raw =>
    have hstep' : handleMessage s sid tag raw = some (s', effs) := hstep
    clear hstep
    rename' hstep' => hstep
    unfold handleMessage lobbyHandle gameHandle at hstep
    split at hstep
    · -- lobby phase
      rename_i hph0
      split at hstep
      · split at hstep
        · exact absurd hstep (by simp)
        · simp only [Option.some.injEq, Prod.mk.injEq] at hstep
          rw [← hstep.1, hph0]
          exact ⟨Nat.le_refl _, by omega, fun h => absurd rfl h⟩
      · split at hstep
        · rename_i hcn hcr
          split at hstep
          · exact absurd hstep (by simp)
          · rename_i p hfind
            split at hstep
            · rename_i hall
              simp only [Option.some.injEq, Prod.mk.injEq] at hstep
              rw [← hstep.1, hph0]
              refine ⟨by omega, by omega, fun _ => ⟨rfl, rfl, sid, raw, p, ?_, hfind, ?_⟩⟩
              · rw [hcr]
              · rw [← hph0]
                exact hall
            · simp only [Option.some.injEq, Prod.mk.injEq] at hstep
              rw [← hstep.1, hph0]
              exact ⟨Nat.le_refl _, by omega, fun h => absurd rfl h⟩
        · simp only [Option.some.injEq, Prod.mk.injEq] at hstep
          rw [← hstep.1, hph0]
          exact ⟨Nat.le_refl _, by omega, fun h => absurd rfl h⟩
    · -- game phase
      rename_i hph1
      have hph : s'.phase = s.phase := by
        split at hstep
        · split at hstep
          · simp only [Option.some.injEq, Prod.mk.injEq] at hstep
            rw [← hstep.1]
          · simp only [Option.some.injEq, Prod.mk.injEq] at hstep
            rw [← hstep.1]
        · split at hstep
          · split at hstep
            · exact absurd hstep (by simp)
            · simp only [Option.some.injEq, Prod.mk.injEq] at hstep
              rw [← hstep.1]
          · simp only [Option.some.injEq, Prod.mk.injEq] at hstep
            rw [← hstep.1]
      rw [hph]
      exact ⟨Nat.le_refl _, fun h => h, fun h => absurd rfl h⟩
    · -- other phase
      simp only [Option.some.injEq, Prod.mk.injEq] at hstep
      rw [← hstep.1]
      exact ⟨Nat.le_refl _, fun h => h, fun h => absurd rfl h⟩

/-- The phase never decreases along a whole run. -/
theorem run_phase_mono (s : ServerState) (τ : List Event) (s' : ServerState)
    (h : run s τ = some s') : s.phase ≤ s'.phase := by
  induction τ generalizing s with
  | nil =>
    unfold run at h
    simp only [Option.some.injEq] at h
    rw [h]
  | cons e es ih =>
    unfold run at h
    cases hst : step s e with
    | none => rw [hst] at h; exact absurd h (by simp)
    | some v =>
      rw [hst] at h
      exact Nat.le_trans (step_phase s e v.1 v.2 hst).1 (ih v.1 h)

end Tron

namespace Tron

/-- C6: the phase never regresses: each broker step keeps the phase
non-decreasing, InGame is absorbing, the only phase-changing step is a ready
message completing the quorum (Lobby to InGame), the phase is non-decreasing
along every whole run, and once the phase is InGame every inbound message is
dispatched to the game-phase handler, never to the lobby-phase chat/ready
logic. -/
theorem C6_phase_never_regresses :
    (∀ (s : ServerState) (e : Event) (s' : ServerState) (effs : List Effect),
      step s e = some (s', effs) →
      s.phase ≤ s'.phase ∧ (s.phase = 1 → s'.phase = 1) ∧
        (s'.phase ≠ s.phase → s.phase = 0 ∧ s'.phase = 1 ∧
          ∃ sid raw p, e = Event.message sid "ready" raw ∧
            findById s sid = some p ∧
            isAllReady { s with players := markReady s.players p.id } = true)) ∧
    (∀ (s : ServerState) (τ : List Event) (s' : ServerState),
      run s τ = some s' → s.phase ≤ s'.phase) ∧
    (∀ (s : ServerState) (sid : Int) (tag raw : String), s.phase = 1 →
      handleMessage s sid tag raw = gameHandle s sid tag raw) := by
  refine ⟨step_phase, run_phase_mono, ?_⟩
  intro s sid tag raw h1
  unfold handleMessage
  rw [h1]

/-- C6 witness: the quorum-completing ready message in `lobbyTwo` is a step,
and its phase moves from 0 to 1, never backwards. -/
theorem C6_phase_never_regresses_witness :
    (step lobbyTwo (Event.message 1 "ready" "r") =
      some ({ players := [{ id := 0, color := "#ff0000", ready := true },
                          { id := 1, color := "#00ff00", ready := true }],
              free_colors := ["#0000ff"], ids := 2, phase := 1,
              ticking := false, listenerClosed := false },
            [Effect.send 0 (OutMsg.startGame ["#ff0000", "#00ff00"]),
             Effect.send 1 (OutMsg.startGame ["#ff0000", "#00ff00"])])) ∧
    lobbyTwo.phase ≤ (1 : Nat) := by
  refine ⟨by decide, ?_⟩
  have h := (C6_phase_never_regresses.1 lobbyTwo (Event.message 1 "ready" "r")
      { players := [{ id := 0, color := "#ff0000", ready := true },
                    { id := 1, color := "#00ff00", ready := true }],
        free_colors := ["#0000ff"], ids := 2, phase := 1,
        ticking := false, listenerClosed := false }
      [Effect.send 0 (OutMsg.startGame ["#ff0000", "#00ff00"]),
       Effect.send 1 (OutMsg.startGame ["#ff0000", "#00ff00"])]
      (by decide)).1
  exact h

/-- Structure eta: re-setting an already-true `listenerClosed` is the identity. -/
theorem setListenerClosed_eta (s : ServerState) (h : s.listenerClosed = true) :
    ({ s with listenerClosed := true } : ServerState) = s := by
  cases s
  dsimp only at h
  rw [h]

/-- From a Running in-game state, a run of pure Start messages launches no
ticker at all. -/
theorem runEff_starts_running (s : ServerState) (τ : List Event)
    (hph : s.phase = 1) (ht : s.ticking = true)
    (hτ : ∀ e ∈ τ, ∃ sid raw, e = Event.message sid "start" raw) :
    ∃ s'' effs, runEff s τ = some (s'', effs) ∧ s''.ticking = true ∧
      s''.phase = 1 ∧ effs.count Effect.launchTicker = 0 := by
  induction τ generalizing s with
  | nil => exact ⟨s, [], rfl, ht, hph, rfl⟩
  | cons e es ih =>
    obtain ⟨sid, raw, rfl⟩ := hτ e (List.mem_cons_self e es)
    have hstep : step s (Event.message sid "start" raw) =
        some ({ s with listenerClosed := true },
          [Effect.stopListenSignal, Effect.closeListener]) := by
      show handleMessage s sid "start" raw = _
      unfold handleMessage gameHandle
      rw [hph]
      dsimp only
      rw [if_pos rfl, if_pos ht]
    obtain ⟨s'', effs, hrun, h1, h2, h3⟩ :=
      ih { s with listenerClosed := true } hph ht
        (fun e he => hτ e (List.mem_cons_of_mem _ he))
    refine ⟨s'', [Effect.stopListenSignal, Effect.closeListener] ++ effs,
      ?_, h1, h2, ?_⟩
    · unfold runEff
      rw [hstep]
      dsimp only
      rw [hrun]
    · rw [List.count_append, h3]
      rfl

/-- C7: Start in game phase is idempotent for the ticker: from Idle the flag
flips to Running and exactly one ticker launch is emitted; a Start processed
while Running launches nothing and (the listener being already closed by that
earlier in-game message) changes nothing at all; over any non-empty run of
Start messages from Idle, exactly one ticker launch occurs in total. -/
theorem C7_start_idempotent (s : ServerState) (sid : Int) (raw : String)
    (hinv : Inv s) (hph : s.phase = 1) :
    (s.ticking = false →
      handleMessage s sid "start" raw =
        some ({ s with ticking := true, listenerClosed := true },
          [Effect.stopListenSignal, Effect.closeListener,
           Effect.launchTicker])) ∧
    (s.ticking = true →
      handleMessage s sid "start" raw =
        some (s, [Effect.stopListenSignal, Effect.closeListener])) ∧
    (∀ τ : List Event,
      (∀ e ∈ τ, ∃ sid' raw', e = Event.message sid' "start" raw') →
      s.ticking = false → τ ≠ [] →
      ∃ s'' effs, runEff s τ = some (s'', effs) ∧ s''.ticking = true ∧
        effs.count Effect.launchTicker = 1) := by
  refine ⟨?_, ?_, ?_⟩
  · intro ht
    unfold handleMessage gameHandle
    rw [hph]
    dsimp only
    rw [if_pos rfl, ht]
    rfl
  · intro ht
    have hlc : s.listenerClosed = true := hinv.2.2 ht
    unfold handleMessage gameHandle
    rw [hph]
    dsimp only
    rw [if_pos rfl, if_pos ht]
    have hs : ({ players := s.players, free_colors := s.free_colors,
                 ids := s.ids, phase := 1, ticking := s.ticking,
                 listenerClosed := true } : ServerState) = s := by
      cases s
      dsimp only at hph hlc ⊢
      rw [hph, hlc]
    rw [hs]
  · intro τ hτ ht hne
    cases τ with
    | nil => exact absurd rfl hne
    | cons e es =>
      obtain ⟨sid', raw', rfl⟩ := hτ e (List.mem_cons_self e es)
      have hstep : step s (Event.message sid' "start" raw') =
          some ({ s with ticking := true, listenerClosed := true },
            [Effect.stopListenSignal, Effect.closeListener,
             Effect.launchTicker]) := by
        show handleMessage s sid' "start" raw' = _
        unfold handleMessage gameHandle
        rw [hph]
        dsimp only
        rw [if_pos rfl, ht]
        rfl
      obtain ⟨s'', effs, hrun, h1, _, h3⟩ :=
        runEff_starts_running { s with ticking := true, listenerClosed := true }
          es hph rfl (fun e he => hτ e (List.mem_cons_of_mem _ he))
      refine ⟨s'', [Effect.stopListenSignal, Effect.closeListener,
        Effect.launchTicker] ++ effs, ?_, h1, ?_⟩
      · unfold runEff
        rw [hstep]
        dsimp only
        rw [hrun]
      · rw [List.count_append, h3]
        rfl

/-- C7 witness: in `gameTwo` (Idle ticker) a Start message launches the ticker
once; two consecutive Start messages still launch it exactly once. -/
theorem C7_start_idempotent_witness :
    (Inv gameTwo ∧ gameTwo.phase = 1 ∧ gameTwo.ticking = false) ∧
    (∃ s'' effs,
      runEff gameTwo [Event.message 0 "start" "s", Event.message 1 "start" "s"] =
        some (s'', effs) ∧ s''.ticking = true ∧
      effs.count Effect.launchTicker = 1) := by
  refine ⟨⟨by decide, by decide, by decide⟩, ?_⟩
  exact (C7_start_idempotent gameTwo 0 "s" (by decide) (by decide)).2.2
    [Event.message 0 "start" "s", Event.message 1 "start" "s"]
    (by
      intro e he
      rcases List.mem_cons.mp he with rfl | he'
      · exact ⟨0, "s", rfl⟩
      · rcases List.mem_cons.mp he' with rfl | he''
        · exact ⟨1, "s", rfl⟩
        · exact absurd he'' (by simp))
    (by decide) (by simp)

end Tron

namespace Tron

/-- C8: an inbound message whose decoded type tag is not one the current phase
recognizes — in particular a malformed JSON line, whose failed unmarshal leaves
the tag at the zero value "" — is dropped without failure: the handler returns
normally, players (including ready flags), color pool, id counter, phase and
ticking flag are all unchanged, nothing is written to any player, no disconnect
is performed, and no loop-stop or ticker-stop signal is emitted. -/
theorem C8_unknown_message_drop (s : ServerState) (sid : Int)
    (tag raw : String)
    (hcase : (s.phase = 0 ∧ tag ≠ "chat" ∧ tag ≠ "ready") ∨
             (s.phase = 1 ∧ tag ≠ "start" ∧ tag ≠ "player_event")) :
    ∃ s' effs, handleMessage s sid tag raw = some (s', effs) ∧
      s'.players = s.players ∧ s'.free_colors = s.free_colors ∧
      s'.ids = s.ids ∧ s'.phase = s.phase ∧ s'.ticking = s.ticking ∧
      (∀ i m, Effect.send i m ∉ effs) ∧
      Effect.stopServerSignal ∉ effs ∧ Effect.stopTickSignal ∉ effs := by
  rcases hcase with ⟨hph, hc, hr⟩ | ⟨hph, hst, hpe⟩
  · refine ⟨s, [], ?_, rfl, rfl, rfl, rfl, rfl, by simp, by simp, by simp⟩
    unfold handleMessage lobbyHandle
    rw [hph]
    dsimp only
    rw [if_neg hc, if_neg hr]
  · refine ⟨{ s with listenerClosed := true },
      [Effect.stopListenSignal, Effect.closeListener], ?_, rfl, rfl, rfl,
      rfl, rfl, by simp, by simp, by simp⟩
    unfold handleMessage gameHandle
    rw [hph]
    dsimp only
    rw [if_neg hst, if_neg hpe]

/-- C8 witness: a malformed line (tag decoded to "") in the lobby of
`lobbyTwo` leaves the whole state unchanged and sends nothing. -/
theorem C8_unknown_message_drop_witness :
    (lobbyTwo.phase = 0 ∧ "" ≠ "chat" ∧ "" ≠ "ready") ∧
    (∃ s' effs, handleMessage lobbyTwo 0 "" "not json\n" = some (s', effs) ∧
      s'.players = lobbyTwo.players ∧ s'.free_colors = lobbyTwo.free_colors ∧
      s'.ids = lobbyTwo.ids ∧ s'.phase = lobbyTwo.phase ∧
      s'.ticking = lobbyTwo.ticking ∧
      (∀ i m, Effect.send i m ∉ effs) ∧
      Effect.stopServerSignal ∉ effs ∧ Effect.stopTickSignal ∉ effs) :=
  ⟨⟨by decide, by decide, by decide⟩,
   C8_unknown_message_drop lobbyTwo 0 "" "not json\n"
     (Or.inl ⟨by decide, by decide, by decide⟩)⟩

/-- Every broker step keeps a closed listener closed. -/
theorem listenerClosed_step (s : ServerState) (e : Event) (s' : ServerState)
    (effs : List Effect) (hstep : step s e = some (s', effs))
    (hc : s.listenerClosed = true) : s'.listenerClosed = true := by
  cases e with
  | connect =>
    unfold step handleConnect at hstep
    cases hfc : s.free_colors with
    | nil =>
      unfold subscribe at hstep
      rw [hfc] at hstep
      exact absurd hstep (by simp)
    | cons c rest =>
      rw [subscribe_cons s c rest hfc] at hstep
      simp only [Option.some.injEq, Prod.mk.injEq] at hstep
      rw [← hstep.1]
      exact hc
  | disconnect i =>
    unfold step at hstep
    simp only [Option.some.injEq] at hstep
    have h1 : (handleDisconnect s i).1 = s' := by rw [hstep]
    rw [← h1]
    unfold handleDisconnect
    have hbase : ∀ t : ServerState, t.listenerClosed = true →
        (teardownCheck t).1.listenerClosed = true := by
      intro t htl
      unfold teardownCheck shutdown
      split
      · rfl
      · exact htl
    cases hf : findById s i with
    | none => exact hbase s hc
    | some p =>
      dsimp only
      apply hbase
      unfold unsubscribe
      split
      · exact hc
      · exact hc
  | stop =>
    unfold step at hstep
    simp only [Option.some.injEq, Prod.mk.injEq] at hstep
    rw [← hstep.1]
    exact hc
  | message sid tag raw =>
    have hm : handleMessage s sid tag raw = some (s', effs) := hstep
    unfold handleMessage lobbyHandle gameHandle at hm
    split at hm
    · split at hm
      · split at hm
        · exact absurd hm (by simp)
        · simp only [Option.some.injEq, Prod.mk.injEq] at hm
          rw [← hm.1]
          exact hc
      · split at hm
        · split at hm
          · exact absurd hm (by simp)
          · split at hm
            · simp only [Option.some.injEq, Prod.mk.injEq] at hm
              rw [← hm.1]
              exact hc
            · simp only [Option.some.injEq, Prod.mk.injEq] at hm
              rw [← hm.1]
              exact hc
        · simp only [Option.some.injEq, Prod.mk.injEq] at hm
          rw [← hm.1]
          exact hc
    · split at hm
      · split at hm
        · simp only [Option.some.injEq, Prod.mk.injEq] at hm
          rw [← hm.1]
        · simp only [Option.some.injEq, Prod.mk.injEq] at hm
          rw [← hm.1]
      · split at hm
        · split at hm
          · exact absurd hm (by simp)
          · simp only [Option.some.injEq, Prod.mk.injEq] at hm
            rw [← hm.1]
        · simp only [Option.some.injEq, Prod.mk.injEq] at hm
          rw [← hm.1]
    · simp only [Option.some.injEq, Prod.mk.injEq] at hm
      rw [← hm.1]
      exact hc

end Tron

namespace Tron

/-- The fan-out produces only send effects. -/
theorem sendAll_only_sends (s : ServerState) (m : OutMsg) (e : Int)
    (x : Effect) (hx : x ∈ sendAllClients s m e) :
    ∃ i m', x = Effect.send i m' := by
  unfold sendAllClients at hx
  obtain ⟨b, _, hb⟩ := List.mem_filterMap.mp hx
  by_cases h : (b.id == e) = true
  · rw [if_pos h] at hb
    exact absurd hb (by simp)
  · rw [if_neg h] at hb
    simp only [Option.some.injEq] at hb
    exact ⟨b.id, m, hb.symm⟩

/-- C9 counterexample: along the canonical session trace (two joins, quorum,
Start, then a PlayerEvent) the listener stop signal is emitted twice — once by
each message processed in the InGame phase — refuting that it is emitted only
upon the first InGame message. -/
theorem C9_stop_signal_counterexample :
    (runEff create [Event.connect, Event.connect,
        Event.message 0 "ready" "r", Event.message 1 "ready" "r",
        Event.message 0 "start" "s",
        Event.message 0 "player_event" "e"]).map
      (fun v => v.2.count Effect.stopListenSignal) = some 2 := by
  decide

/-- C9 amended: every message processed in the InGame phase (not only the
first) emits the listener stop signal and leaves the listener closed; no
Lobby-phase message ever emits it (so nothing is disabled at the instant the
phase flips); a closed listener stays closed forever; a connection arriving
after the phase flip but before the first InGame message is still admitted;
and the disabling is not atomic with that first InGame message either: the
Broker never refuses an admission event, so a connection the listener accepted
before `serverListener.Close()` and still in flight on the `conns` channel
(hostServer blocked at server.go line 334) is admitted even after the first
InGame message has closed the listener. -/
theorem C9_listener_disable_amended :
    (∀ (s : ServerState) (sid : Int) (tag raw : String)
       (s' : ServerState) (effs : List Effect),
      s.phase = 1 → handleMessage s sid tag raw = some (s', effs) →
      Effect.stopListenSignal ∈ effs ∧ s'.listenerClosed = true) ∧
    (∀ (s : ServerState) (sid : Int) (tag raw : String)
       (s' : ServerState) (effs : List Effect),
      s.phase = 0 → handleMessage s sid tag raw = some (s', effs) →
      Effect.stopListenSignal ∉ effs) ∧
    (∀ (s : ServerState) (e : Event) (s' : ServerState) (effs : List Effect),
      step s e = some (s', effs) →
      s.listenerClosed = true → s'.listenerClosed = true) ∧
    (run create [Event.connect, Event.connect,
        Event.message 0 "ready" "r", Event.message 1 "ready" "r",
        Event.connect] =
        some { players := [{ id := 0, color := "#ff0000", ready := true },
                           { id := 1, color := "#00ff00", ready := true },
                           { id := 2, color := "#0000ff", ready := false }],
               free_colors := [], ids := 3, phase := 1, ticking := false,
               listenerClosed := false }) ∧
    (run create [Event.connect, Event.connect,
        Event.message 0 "ready" "r", Event.message 1 "ready" "r",
        Event.message 0 "start" "s", Event.connect] =
        some { players := [{ id := 0, color := "#ff0000", ready := true },
                           { id := 1, color := "#00ff00", ready := true },
                           { id := 2, color := "#0000ff", ready := false }],
               free_colors := [], ids := 3, phase := 1, ticking := true,
               listenerClosed := true }) := by
  refine ⟨?_, ?_, listenerClosed_step, by decide, by decide⟩
  · intro s sid tag raw s' effs hph hm
    unfold handleMessage at hm
    rw [hph] at hm
    dsimp only at hm
    unfold gameHandle at hm
    split at hm
    · split at hm
      · simp only [Option.some.injEq, Prod.mk.injEq] at hm
        exact ⟨hm.2 ▸ List.mem_cons_self _ _, hm.1 ▸ rfl⟩
      · simp only [Option.some.injEq, Prod.mk.injEq] at hm
        exact ⟨hm.2 ▸ List.mem_cons_self _ _, hm.1 ▸ rfl⟩
    · split at hm
      · split at hm
        · exact absurd hm (by simp)
        · simp only [Option.some.injEq, Prod.mk.injEq] at hm
          exact ⟨hm.2 ▸ List.mem_cons_self _ _, hm.1 ▸ rfl⟩
      · simp only [Option.some.injEq, Prod.mk.injEq] at hm
        exact ⟨hm.2 ▸ List.mem_cons_self _ _, hm.1 ▸ rfl⟩
  · intro s sid tag raw s' effs hph hm
    unfold handleMessage at hm
    rw [hph] at hm
    dsimp only at hm
    unfold lobbyHandle at hm
    split at hm
    · split at hm
      · exact absurd hm (by simp)
      · simp only [Option.some.injEq, Prod.mk.injEq] at hm
        intro hmem
        rw [← hm.2] at hmem
        obtain ⟨i, m', hx⟩ := sendAll_only_sends _ _ _ _ hmem
        exact absurd hx (by simp)
    · split at hm
      · split at hm
        · exact absurd hm (by simp)
        · split at hm
          · simp only [Option.some.injEq, Prod.mk.injEq] at hm
            intro hmem
            rw [← hm.2] at hmem
            obtain ⟨i, m', hx⟩ := sendAll_only_sends _ _ _ _ hmem
            exact absurd hx (by simp)
          · simp only [Option.some.injEq, Prod.mk.injEq] at hm
            rw [← hm.2]
            simp
      · simp only [Option.some.injEq, Prod.mk.injEq] at hm
        rw [← hm.2]
        simp

/-- C9 amended witness: the Start message processed by `gameTwo` (an InGame
state) emits the listener stop signal. -/
theorem C9_listener_disable_amended_witness :
    (gameTwo.phase = 1 ∧
      handleMessage gameTwo 0 "start" "s" =
        some ({ gameTwo with ticking := true },
          [Effect.stopListenSignal, Effect.closeListener,
           Effect.launchTicker])) ∧
    Effect.stopListenSignal ∈
      [Effect.stopListenSignal, Effect.closeListener, Effect.launchTicker] :=
  ⟨⟨by decide, by decide⟩,
   (C9_listener_disable_amended.1 gameTwo 0 "start" "s"
      { gameTwo with ticking := true }
      [Effect.stopListenSignal, Effect.closeListener, Effect.launchTicker]
      (by decide) (by decide)).1⟩

end Tron
